import Mathlib

/-!
Shallow embedding of the VC-text archiver bot (src/bot.py): the record
model, the seen-set deduplication, the durable log store (in-memory
buffer plus per-room on-disk JSON array), the capture handlers, the
room-deletion exporter with retention cap and byte chunking, and the
cache purge admin command; together with theorems about its behaviour.
-/

namespace VcArchiver

/-- One captured message event, with the fields written by the capture
handlers in bot.py: ts, author_id, author_name, content, attachments,
edited, deleted, message_id. -/
structure Record where
  ts : String
  author_id : String
  author_name : String
  content : String
  attachments : List String
  edited : Bool
  deleted : Bool
  message_id : String
deriving DecidableEq

/-- Identity tuple used by dedup in bot.py:
(message_id, ts, content, edited, deleted). -/
abbrev RecKey := String × String × String × Bool × Bool

/-- Projection of a record to its dedup identity tuple. -/
def recKey (r : Record) : RecKey :=
  (r.message_id, r.ts, r.content, r.edited, r.deleted)

/-- Loop of dedup in bot.py: walk the list with a seen-set of identity
tuples, keeping a record only when its tuple has not been seen. -/
def dedupGo (seen : List RecKey) : List Record → List Record
  | [] => []
  | r :: rest =>
    if recKey r ∈ seen then dedupGo seen rest
    else r :: dedupGo (recKey r :: seen) rest

/-- dedup from bot.py: remove duplicates by identity tuple, first
occurrence kept. -/
def dedup (records : List Record) : List Record :=
  dedupGo [] records

/-- The deduplication described by the spec: keep the first occurrence,
drop every later record with the same identity tuple, preserve relative
order. Stated as an independent recursion to compare with the seen-set
implementation. -/
def dedupFirstOcc : List Record → List Record
  | [] => []
  | r :: rest =>
    r :: dedupFirstOcc (rest.filter (fun y => decide ¬ recKey y = recKey r))
termination_by xs => xs.length
decreasing_by
  simp only [List.length_cons]
  exact Nat.lt_succ_of_le (List.length_filter_le _ _)

theorem dedupGo_congr_seen {s₁ s₂ : List RecKey}
    (h : ∀ k, k ∈ s₁ ↔ k ∈ s₂) :
    ∀ xs, dedupGo s₁ xs = dedupGo s₂ xs := by
  intro xs
  induction xs generalizing s₁ s₂ with
  | nil => rfl
  | cons r rest ih =>
    by_cases hm : recKey r ∈ s₁
    · rw [dedupGo, dedupGo, if_pos hm, if_pos ((h _).mp hm)]
      exact ih h
    · rw [dedupGo, dedupGo, if_neg hm, if_neg (fun hc => hm ((h _).mpr hc))]
      refine congrArg (r :: ·) (ih ?_)
      intro k
      simp only [List.mem_cons]
      exact or_congr Iff.rfl (h k)

theorem dedupGo_sublist (seen : List RecKey) :
    ∀ xs, (dedupGo seen xs).Sublist xs := by
  intro xs
  induction xs generalizing seen with
  | nil => exact List.Sublist.refl _
  | cons r rest ih =>
    by_cases hm : recKey r ∈ seen
    · rw [dedupGo, if_pos hm]
      exact (ih seen).cons r
    · rw [dedupGo, if_neg hm]
      exact (ih _).cons₂ r

theorem mem_dedupGo_not_seen {seen : List RecKey} {xs : List Record}
    {r : Record} (h : r ∈ dedupGo seen xs) : recKey r ∉ seen := by
  induction xs generalizing seen with
  | nil => simp [dedupGo] at h
  | cons a rest ih =>
    by_cases hm : recKey a ∈ seen
    · rw [dedupGo, if_pos hm] at h
      exact ih h
    · rw [dedupGo, if_neg hm] at h
      rcases List.mem_cons.mp h with hr | hr
      · subst hr; exact hm
      · have := ih hr
        intro hc
        exact this (List.mem_cons_of_mem _ hc)

theorem dedupGo_keys_nodup (seen : List RecKey) :
    ∀ xs, ((dedupGo seen xs).map recKey).Nodup := by
  intro xs
  induction xs generalizing seen with
  | nil => simp [dedupGo]
  | cons r rest ih =>
    by_cases hm : recKey r ∈ seen
    · rw [dedupGo, if_pos hm]; exact ih seen
    · rw [dedupGo, if_neg hm]
      refine List.Nodup.cons ?_ (ih _)
      intro hc
      rcases List.mem_map.mp hc with ⟨s, hs, hk⟩
      exact mem_dedupGo_not_seen hs (hk ▸ List.mem_cons_self _ _)

theorem dedupGo_complete {seen : List RecKey} {xs : List Record}
    {r : Record} (hr : r ∈ xs) (hn : recKey r ∉ seen) :
    ∃ s ∈ dedupGo seen xs, recKey s = recKey r := by
  induction xs generalizing seen with
  | nil => cases hr
  | cons a rest ih =>
    by_cases hm : recKey a ∈ seen
    · rw [dedupGo, if_pos hm]
      rcases List.mem_cons.mp hr with h | h
      · subst h; exact absurd hm hn
      · exact ih h hn
    · rw [dedupGo, if_neg hm]
      rcases List.mem_cons.mp hr with h | h
      · exact ⟨a, List.mem_cons_self _ _, by rw [h]⟩
      · by_cases hk : recKey r = recKey a
        · exact ⟨a, List.mem_cons_self _ _, hk.symm⟩
        · have : recKey r ∉ recKey a :: seen := by
            intro hc
            rcases List.mem_cons.mp hc with hc | hc
            · exact hk hc
            · exact hn hc
          rcases ih h this with ⟨s, hs, hks⟩
          exact ⟨s, List.mem_cons_of_mem _ hs, hks⟩

theorem dedupGo_eq_firstOcc (seen : List RecKey) :
    ∀ xs, dedupGo seen xs
      = dedupFirstOcc (xs.filter (fun y => decide ¬ recKey y ∈ seen)) := by
  intro xs
  induction xs generalizing seen with
  | nil => simp [dedupGo, dedupFirstOcc]
  | cons r rest ih =>
    by_cases hm : recKey r ∈ seen
    · rw [dedupGo, if_pos hm, List.filter_cons_of_neg (by simpa using hm)]
      exact ih seen
    · rw [dedupGo, if_neg hm, List.filter_cons_of_pos (by simpa using hm),
        dedupFirstOcc]
      refine congrArg (r :: ·) ?_
      rw [ih (recKey r :: seen), List.filter_filter]
      refine congrArg dedupFirstOcc (List.filter_congr ?_)
      intro a _
      by_cases h1 : recKey a = recKey r <;> by_cases h2 : recKey a ∈ seen <;>
        simp [h1, h2]

theorem dedup_eq_firstOcc (xs : List Record) :
    dedup xs = dedupFirstOcc xs := by
  rw [dedup, dedupGo_eq_firstOcc]
  refine congrArg dedupFirstOcc ?_
  simp

theorem dedup_sublist (xs : List Record) : (dedup xs).Sublist xs :=
  dedupGo_sublist [] xs

theorem dedup_keys_nodup (xs : List Record) :
    ((dedup xs).map recKey).Nodup :=
  dedupGo_keys_nodup [] xs

theorem dedup_pairwise (xs : List Record) :
    (dedup xs).Pairwise (fun a b => recKey a ≠ recKey b) :=
  (List.pairwise_map.mp (dedup_keys_nodup xs))

theorem dedup_complete {xs : List Record} {r : Record} (hr : r ∈ xs) :
    ∃ s ∈ dedup xs, recKey s = recKey r :=
  dedupGo_complete hr (by simp)

theorem dedupGo_of_nodup {seen : List RecKey} :
    ∀ {xs : List Record}, (∀ y ∈ xs, recKey y ∉ seen) →
      (xs.map recKey).Nodup → dedupGo seen xs = xs := by
  intro xs
  induction xs generalizing seen with
  | nil => intro _ _; rfl
  | cons r rest ih =>
    intro hseen hnd
    rw [dedupGo, if_neg (hseen r (List.mem_cons_self _ _))]
    refine congrArg (r :: ·) (ih ?_ ?_)
    · intro y hy
      intro hc
      rcases List.mem_cons.mp hc with hc | hc
      · have : recKey y ∈ rest.map recKey := List.mem_map_of_mem _ hy
        rw [hc] at this
        exact (List.nodup_cons.mp (by simpa using hnd)).1 this
      · exact hseen y (List.mem_cons_of_mem _ hy) hc
    · exact (List.nodup_cons.mp (by simpa using hnd)).2

theorem dedup_idem (xs : List Record) : dedup (dedup xs) = dedup xs :=
  dedupGo_of_nodup (by simp) (dedup_keys_nodup xs)

theorem dedupGo_append (seen : List RecKey) :
    ∀ xs ys, dedupGo seen (xs ++ ys)
      = dedupGo seen xs ++ dedupGo (xs.map recKey ++ seen) ys := by
  intro xs
  induction xs generalizing seen with
  | nil => intro ys; rfl
  | cons r rest ih =>
    intro ys
    by_cases hm : recKey r ∈ seen
    · rw [List.cons_append, dedupGo, if_pos hm, dedupGo, if_pos hm, ih]
      refine congrArg (dedupGo seen rest ++ ·) (dedupGo_congr_seen ?_ ys)
      intro k
      simp only [List.map_cons, List.cons_append, List.mem_cons,
        List.mem_append]
      constructor
      · rintro (hk | hk)
        · exact Or.inr (Or.inl hk)
        · exact Or.inr (Or.inr hk)
      · rintro (hk | hk | hk)
        · exact Or.inr (hk ▸ hm)
        · exact Or.inl hk
        · exact Or.inr hk
    · rw [List.cons_append, dedupGo, if_neg hm, dedupGo, if_neg hm, ih,
        List.cons_append]
      refine congrArg (r :: ·) ?_
      refine congrArg (dedupGo (recKey r :: seen) rest ++ ·)
        (dedupGo_congr_seen ?_ ys)
      intro k
      simp only [List.map_cons, List.cons_append, List.mem_cons,
        List.mem_append]
      tauto

theorem dedupGo_eq_nil {seen : List RecKey} :
    ∀ {xs : List Record}, (∀ y ∈ xs, recKey y ∈ seen) →
      dedupGo seen xs = [] := by
  intro xs
  induction xs generalizing seen with
  | nil => intro _; rfl
  | cons r rest ih =>
    intro h
    rw [dedupGo, if_pos (h r (List.mem_cons_self _ _))]
    exact ih (fun y hy => h y (List.mem_cons_of_mem _ hy))

theorem dedup_append_self (xs : List Record) :
    dedup (xs ++ xs) = dedup xs := by
  rw [dedup, dedupGo_append]
  have h2 : dedupGo (xs.map recKey ++ []) xs = [] := by
    refine dedupGo_eq_nil ?_
    intro y hy
    exact List.mem_append.mpr (Or.inl (List.mem_map_of_mem _ hy))
  rw [h2, List.append_nil]
  rfl

/-- Name of a file in the data directory DATA_DIR. The program itself only
creates per-room files named by the channel id plus a .json suffix, and the
settings file settings.json; the remaining constructors stand for any other
file name, split by whether it carries the .json suffix. A numeric name
never equals the literal settings.json, which the constructor distinction
encodes. -/
inductive FileName where
  | channelFile : Nat → FileName
  | settingsFile : FileName
  | otherJson : String → FileName
  | nonJson : String → FileName
deriving DecidableEq

/-- Decoded view of a file's content: either a JSON array of records, or
anything that does not decode as one (corrupt data, the settings object,
unrelated files). -/
inductive FileData where
  | arr : List Record → FileData
  | other : FileData
deriving DecidableEq

/-- Test fn.endswith of the .json suffix at the level of FileName. -/
def endsJson : FileName → Bool
  | .channelFile _ => true
  | .settingsFile => true
  | .otherJson _ => true
  | .nonJson _ => false

/-- Contents of the data directory: file name to content, none = absent. -/
abbrev Store := FileName → Option FileData

/-- In-memory per-room buffer vc_text_buffer: channel id to record list,
none = no entry for that room. -/
abbrev Buf := Nat → Option (List Record)

/-- Per-guild settings entry, the fields of DEFAULT_SETTINGS in bot.py. -/
structure GuildConf where
  log_channel_id : Option Nat
  max_messages_per_channel : Nat
  category_whitelist : List Nat
deriving DecidableEq

/-- DEFAULT_SETTINGS from bot.py. -/
def DEFAULT_SETTINGS : GuildConf :=
  { log_channel_id := none, max_messages_per_channel := 5000,
    category_whitelist := [] }

/-- In-memory guild_settings map. -/
abbrev SettingsMap := Nat → Option GuildConf

/-- Mutable state of the bot process relevant to the room-log pipeline:
the in-memory buffer, the data directory, and the settings map. -/
structure BotState where
  buf : Buf
  files : Store
  settings : SettingsMap

/-- channel_file_path from bot.py: the per-room file named by the channel
id with a .json suffix. -/
def channel_file_path (cid : Nat) : FileName :=
  FileName.channelFile cid

/-- Shared read pattern of bot.py (append_message_to_disk and
load_channel_records): a missing file or one that does not decode as a
record array is treated as the empty array, never as an error. -/
def readRecordsOrEmpty : Option FileData → List Record
  | some (.arr rs) => rs
  | some .other => []
  | none => []

/-- save_settings from bot.py: writes the settings object to
settings.json (content is not a record array). -/
def save_settings (files : Store) : Store :=
  fun n => if n = FileName.settingsFile then some FileData.other else files n

/-- guild_conf from bot.py: look up the guild's settings; on first access
install the defaults and persist them. -/
def guild_conf (st : BotState) (gid : Nat) : GuildConf × BotState :=
  match st.settings gid with
  | some c => (c, st)
  | none =>
    (DEFAULT_SETTINGS,
      { st with
        settings := fun g =>
          if g = gid then some DEFAULT_SETTINGS else st.settings g,
        files := save_settings st.files })

/-- in_target_categories from bot.py: empty whitelist admits everything;
otherwise the room's parent category must exist and be listed.
Threads the state because guild_conf may install defaults. -/
def in_target_categories (st : BotState) (gid : Nat)
    (category_id : Option Nat) : Bool × BotState :=
  let p := guild_conf st gid
  let wl := p.1.category_whitelist
  if wl = [] then (true, p.2)
  else
    match category_id with
    | none => (false, p.2)
    | some c => (wl.contains c, p.2)

/-- append_message_to_disk from bot.py: read the room's file (empty on
missing or undecodable), append the record, write the whole array back. -/
def append_message_to_disk (files : Store) (cid : Nat) (r : Record) :
    Store :=
  let path := channel_file_path cid
  let data := readRecordsOrEmpty (files path)
  fun n => if n = path then some (FileData.arr (data ++ [r])) else files n

/-- vc_text_buffer.setdefault(channel_id, []).append(rec) from bot.py. -/
def bufAppend (buf : Buf) (cid : Nat) (r : Record) : Buf :=
  fun c => if c = cid then some ((buf cid).getD [] ++ [r]) else buf c

/-- load_channel_records from bot.py: dedup of the on-disk array (empty on
missing or undecodable) concatenated with the in-memory buffer. -/
def load_channel_records (st : BotState) (cid : Nat) : List Record :=
  let mem := (st.buf cid).getD []
  let disk := readRecordsOrEmpty (st.files (channel_file_path cid))
  dedup (disk ++ mem)

/-- remove_channel_disk from bot.py: delete the room's file; a missing
file is silently ignored. -/
def remove_channel_disk (files : Store) (cid : Nat) : Store :=
  fun n => if n = channel_file_path cid then none else files n

/-- The message-event data consumed by the capture handlers. -/
structure Msg where
  author_bot : Bool
  is_voice : Bool
  guild_id : Nat
  channel_id : Nat
  category_id : Option Nat
  created_ts : String
  edited_ts : Option String
  author_id : String
  author_name : String
  content : String
  attachments : List String
  message_id : String

/-- Record built by on_message in bot.py for a create event. -/
def mkCreateRecord (m : Msg) : Record :=
  { ts := m.created_ts, author_id := m.author_id,
    author_name := m.author_name, content := m.content,
    attachments := m.attachments, edited := false, deleted := false,
    message_id := m.message_id }

/-- on_message from bot.py: skip bot authors, non-voice rooms, and rooms
failing the category filter; otherwise append the record to the buffer
and to disk. -/
def on_message (st : BotState) (m : Msg) : BotState :=
  if m.author_bot then st
  else if ¬ m.is_voice then st
  else
    let p := in_target_categories st m.guild_id m.category_id
    if ¬ p.1 then p.2
    else
      let r := mkCreateRecord m
      { p.2 with
        buf := bufAppend p.2.buf m.channel_id r,
        files := append_message_to_disk p.2.files m.channel_id r }

/-- Record built by on_message_edit in bot.py: timestamp from edited_at
when available, content prefixed with the edit marker, edited flag set. -/
def mkEditRecord (m : Msg) (now_ts : String) : Record :=
  { ts := m.edited_ts.getD now_ts, author_id := m.author_id,
    author_name := m.author_name, content := "(編集後) " ++ m.content,
    attachments := m.attachments, edited := true, deleted := false,
    message_id := m.message_id }

/-- on_message_edit from bot.py: checks only the room type and the
category filter (there is no bot-author check on this path), then appends
the edit record to the buffer and to disk. -/
def on_message_edit (st : BotState) (after : Msg) (now_ts : String) :
    BotState :=
  if ¬ after.is_voice then st
  else
    let p := in_target_categories st after.guild_id after.category_id
    if ¬ p.1 then p.2
    else
      let r := mkEditRecord after now_ts
      { p.2 with
        buf := bufAppend p.2.buf after.channel_id r,
        files := append_message_to_disk p.2.files after.channel_id r }

/-- Record built by on_message_delete in bot.py: capture-time timestamp,
fixed sentinel content, deleted flag set. -/
def mkDeleteRecord (m : Msg) (now_ts : String) : Record :=
  { ts := now_ts, author_id := m.author_id,
    author_name := m.author_name,
    content := "(このメッセージは削除されました)",
    attachments := [], edited := false, deleted := true,
    message_id := m.message_id }

/-- on_message_delete from bot.py: checks only the room type and the
category filter (there is no bot-author check on this path), then appends
the delete record to the buffer and to disk. -/
def on_message_delete (st : BotState) (m : Msg) (now_ts : String) :
    BotState :=
  if ¬ m.is_voice then st
  else
    let p := in_target_categories st m.guild_id m.category_id
    if ¬ p.1 then p.2
    else
      let r := mkDeleteRecord m now_ts
      { p.2 with
        buf := bufAppend p.2.buf m.channel_id r,
        files := append_message_to_disk p.2.files m.channel_id r }

/-- Python slice records[-k:]: for positive k, the trailing k elements
(all of them when k exceeds the length); for k = 0 the whole list. -/
def pySliceLast (xs : List Record) (k : Nat) : List Record :=
  if k = 0 then xs else xs.drop (xs.length - k)

/-- The retention step of on_guild_channel_delete in bot.py: if the
merged list is longer than max_keep, keep the trailing slice. -/
def exportRecords (recs : List Record) (max_keep : Nat) : List Record :=
  if recs.length > max_keep then pySliceLast recs max_keep else recs

/-- MAX from send_chunked_logs in bot.py: ceiling on one attachment. -/
def MAX_CHUNK : Nat := 7500000

/-- Number of chunks computed in send_chunked_logs:
max(1, ceil(n / MAX)) when the byte string is non-empty, else 1. -/
def numChunks (n : Nat) : Nat :=
  if n = 0 then 1 else max 1 ((n + MAX_CHUNK - 1) / MAX_CHUNK)

/-- Slice raw[start:end] of one loop iteration in send_chunked_logs, with
start = i * MAX and end = min((i+1) * MAX, len(raw)). -/
def chunkSlice (raw : List Nat) (i : Nat) : List Nat :=
  (raw.drop (i * MAX_CHUNK)).take
    (min ((i + 1) * MAX_CHUNK) raw.length - i * MAX_CHUNK)

/-- All chunks emitted by the loop in send_chunked_logs, in order. -/
def chunkList (raw : List Nat) : List (List Nat) :=
  (List.range (numChunks raw.length)).map (chunkSlice raw)

/-- One outbound send performed by send_chunked_logs. -/
inductive Emission where
  | header : Nat → Nat → Nat → Emission
  | emptyNote : Emission
  | file : List Nat → Emission
deriving DecidableEq

/-- send_chunked_logs from bot.py, as the sequence of outbound sends it
performs: nothing when the destination id is unset or cannot be resolved;
otherwise the defensive dedup, then one header followed by either the
empty-log note or one attachment per byte chunk, in order. The rendering
of records to transcript bytes (build_txt plus utf-8 encoding, which
depends on wall-clock formatting) is abstracted as the function encode. -/
def send_chunked_logs (encode : List Record → List Nat)
    (dest_channel_id : Option Nat) (destResolves : Bool)
    (gid cid : Nat) (all_records : List Record) : List Emission :=
  match dest_channel_id with
  | none => []
  | some _ =>
    if ¬ destResolves then []
    else
      let recs := dedup all_records
      let raw := encode recs
      Emission.header gid cid recs.length ::
        (if raw = [] then [Emission.emptyNote]
         else (chunkList raw).map Emission.file)

/-- The room data consumed by on_guild_channel_delete. -/
structure Chan where
  id : Nat
  guild_id : Nat
  is_voice_like : Bool
  category_id : Option Nat

/-- on_guild_channel_delete from bot.py: for a voice-like room passing
the category filter, load the merged records, apply the retention cap,
send the chunked log, and purge the buffer entry and the on-disk file in
a finally block. The parameter sent models how many of the outbound
sends completed before an exception, if any, interrupted the rest: the
observed emissions are a prefix, and the purge runs regardless. -/
def on_guild_channel_delete (st : BotState) (ch : Chan)
    (encode : List Record → List Nat) (destResolves : Bool)
    (sent : Nat) : BotState × List Emission :=
  if ¬ ch.is_voice_like then (st, [])
  else
    let p := in_target_categories st ch.guild_id ch.category_id
    if ¬ p.1 then (p.2, [])
    else
      let q := guild_conf p.2 ch.guild_id
      let all := load_channel_records q.2 ch.id
      let all2 := exportRecords all q.1.max_messages_per_channel
      let ems :=
        (send_chunked_logs encode q.1.log_channel_id destResolves
          ch.guild_id ch.id all2).take sent
      ({ q.2 with
          buf := fun c => if c = ch.id then none else q.2.buf c,
          files := remove_channel_disk q.2.files ch.id },
        ems)

/-- purge_cache from bot.py: clear the whole in-memory buffer and delete
every data-directory file whose name ends in .json other than
settings.json; the settings map is untouched. -/
def purge_cache (st : BotState) : BotState :=
  { st with
    buf := fun _ => none,
    files := fun n =>
      if endsJson n = true ∧ n ≠ FileName.settingsFile then none
      else st.files n }

theorem chunkSlice_eq_take (raw : List Nat) (i : Nat) :
    chunkSlice raw i = (raw.drop (i * MAX_CHUNK)).take MAX_CHUNK := by
  unfold chunkSlice
  obtain ⟨A, hA⟩ : ∃ A, i * MAX_CHUNK = A := ⟨_, rfl⟩
  have hsucc : (i + 1) * MAX_CHUNK = A + MAX_CHUNK := by
    rw [Nat.succ_mul, hA]
  rw [hA, hsucc]
  rcases le_or_lt raw.length A with h | h
  · rw [List.drop_eq_nil_of_le h]
    simp
  · rcases le_or_lt (A + MAX_CHUNK) raw.length with h2 | h2
    · rw [min_eq_left h2, Nat.add_sub_cancel_left]
    · rw [min_eq_right (le_of_lt h2)]
      have hlen : (raw.drop A).length = raw.length - A :=
        List.length_drop _ _
      rw [List.take_of_length_le (by omega),
        List.take_of_length_le (by omega)]

theorem join_range_chunks :
    ∀ (k : Nat) (xs : List Nat), xs.length ≤ k * MAX_CHUNK →
      ((List.range k).map
        (fun i => (xs.drop (i * MAX_CHUNK)).take MAX_CHUNK)).flatten = xs := by
  intro k
  induction k with
  | zero =>
    intro xs h
    have hx : xs = [] := List.eq_nil_of_length_eq_zero (by omega)
    simp [hx]
  | succ k ih =>
    intro xs h
    rw [List.range_succ_eq_map, List.map_cons, List.map_map,
      List.flatten_cons]
    have htail :
        (List.range k).map ((fun i => (xs.drop (i * MAX_CHUNK)).take
          MAX_CHUNK) ∘ Nat.succ)
        = (List.range k).map
            (fun i => ((xs.drop MAX_CHUNK).drop (i * MAX_CHUNK)).take
              MAX_CHUNK) := by
      refine List.map_congr_left ?_
      intro i _
      have hd : (xs.drop MAX_CHUNK).drop (i * MAX_CHUNK)
          = xs.drop (Nat.succ i * MAX_CHUNK) := by
        rw [List.drop_drop, Nat.succ_mul, Nat.add_comm]
      simp only [Function.comp_apply, hd]
    rw [htail, ih (xs.drop MAX_CHUNK) (by
      have : (xs.drop MAX_CHUNK).length = xs.length - MAX_CHUNK :=
        List.length_drop _ _
      have hs : (k + 1) * MAX_CHUNK = k * MAX_CHUNK + MAX_CHUNK :=
        Nat.succ_mul _ _
      omega)]
    simp

theorem length_le_numChunks_mul (n : Nat) :
    n ≤ numChunks n * MAX_CHUNK := by
  unfold numChunks MAX_CHUNK
  by_cases h : n = 0
  · simp [h]
  · rw [if_neg h]
    calc n ≤ ((n + 7500000 - 1) / 7500000) * 7500000 := by omega
    _ ≤ max 1 ((n + 7500000 - 1) / 7500000) * 7500000 :=
        Nat.mul_le_mul_right _ (le_max_right _ _)

theorem chunkList_eq_take_drop (raw : List Nat) :
    chunkList raw = (List.range (numChunks raw.length)).map
      (fun i => (raw.drop (i * MAX_CHUNK)).take MAX_CHUNK) := by
  unfold chunkList
  exact List.map_congr_left (fun i _ => chunkSlice_eq_take raw i)

theorem chunkList_join (raw : List Nat) :
    (chunkList raw).flatten = raw := by
  rw [chunkList_eq_take_drop]
  exact join_range_chunks _ raw (length_le_numChunks_mul raw.length)

theorem chunkList_length_le (raw : List Nat) :
    ∀ c ∈ chunkList raw, c.length ≤ MAX_CHUNK := by
  intro c hc
  rw [chunkList_eq_take_drop] at hc
  rcases List.mem_map.mp hc with ⟨i, _, hi⟩
  rw [← hi]
  calc ((raw.drop (i * MAX_CHUNK)).take MAX_CHUNK).length
      ≤ MAX_CHUNK := by
        rw [List.length_take]
        exact min_le_left _ _

theorem guild_conf_found {st : BotState} {gid : Nat} {conf : GuildConf}
    (h : st.settings gid = some conf) :
    guild_conf st gid = (conf, st) := by
  unfold guild_conf
  rw [h]

theorem in_target_snd (st : BotState) (gid : Nat) (cat : Option Nat) :
    (in_target_categories st gid cat).2 = (guild_conf st gid).2 := by
  unfold in_target_categories
  dsimp only
  split
  · rfl
  · split <;> rfl

theorem in_target_fst_false {st : BotState} {gid : Nat} {cat : Option Nat}
    {conf : GuildConf} (hconf : st.settings gid = some conf)
    (hwl : conf.category_whitelist ≠ [])
    (hcat : cat = none ∨ ∃ c, cat = some c
        ∧ conf.category_whitelist.contains c = false) :
    (in_target_categories st gid cat).1 = false := by
  unfold in_target_categories
  rw [guild_conf_found hconf]
  dsimp only
  rw [if_neg hwl]
  rcases hcat with hc | ⟨c, hc, hcc⟩
  · rw [hc]
  · rw [hc]
    simpa using hcc

/-- A blank process state: empty buffer, empty data directory, no
settings. -/
def emptyState : BotState :=
  { buf := fun _ => none, files := fun _ => none, settings := fun _ => none }

/-- A sample record whose identity fields are all driven by one tag. -/
def sampleRec (tag : String) : Record :=
  { ts := tag, author_id := "u1", author_name := "n1", content := tag,
    attachments := [], edited := false, deleted := false,
    message_id := tag }

/-- A sample voice-like room in guild 1 with no parent category. -/
def chanW : Chan :=
  { id := 3, guild_id := 1, is_voice_like := true, category_id := none }

/-- Settings with no archive destination configured. -/
def confNoDest : GuildConf :=
  { log_channel_id := none, max_messages_per_channel := 5000,
    category_whitelist := [] }

/-- A state whose guild 1 has settings with the destination unset. -/
def stConf : BotState :=
  { buf := fun _ => none, files := fun _ => none,
    settings := fun g => if g = 1 then some confNoDest else none }

/-- Settings whose category whitelist is the singleton 5. -/
def confWL : GuildConf :=
  { log_channel_id := none, max_messages_per_channel := 5000,
    category_whitelist := [5] }

/-- A state whose guild 2 has the whitelist-restricted settings. -/
def stWL : BotState :=
  { buf := fun _ => none, files := fun _ => none,
    settings := fun g => if g = 2 then some confWL else none }

/-- A message in guild 2 posted under category 7, not whitelisted. -/
def msgW : Msg :=
  { author_bot := false, is_voice := true, guild_id := 2, channel_id := 9,
    category_id := some 7, created_ts := "t", edited_ts := none,
    author_id := "a", author_name := "n", content := "hi",
    attachments := [], message_id := "m1" }

/-- A bot-authored message in a voice room of guild 3. -/
def botEditMsg : Msg :=
  { author_bot := true, is_voice := true, guild_id := 3, channel_id := 11,
    category_id := none, created_ts := "t0", edited_ts := some "t1",
    author_id := "b1", author_name := "bot", content := "x",
    attachments := [], message_id := "mid" }

/-- A state whose guild 3 carries the default settings. -/
def stBot : BotState :=
  { buf := fun _ => none, files := fun _ => none,
    settings := fun g => if g = 3 then some DEFAULT_SETTINGS else none }

/-- C1: for every room, load_channel_records returns the on-disk record
array concatenated with the in-memory buffer in that order, deduplicated
by the identity tuple with the first occurrence kept and relative order
preserved, and the result contains no two records with the same identity
tuple. -/
theorem C1_loadMerged_disk_then_memory (st : BotState) (cid : Nat) :
    load_channel_records st cid
      = dedup (readRecordsOrEmpty (st.files (channel_file_path cid))
          ++ (st.buf cid).getD [])
    ∧ load_channel_records st cid
      = dedupFirstOcc (readRecordsOrEmpty (st.files (channel_file_path cid))
          ++ (st.buf cid).getD [])
    ∧ (load_channel_records st cid).Sublist
        (readRecordsOrEmpty (st.files (channel_file_path cid))
          ++ (st.buf cid).getD [])
    ∧ (load_channel_records st cid).Pairwise
        (fun a b => recKey a ≠ recKey b) :=
  ⟨rfl, dedup_eq_firstOcc _, dedup_sublist _, dedup_pairwise _⟩

/-- C2: at export time, a merged list longer than the positive retention
cap is cut to exactly the trailing cap records, in original order. -/
theorem C2_retention_cap (recs : List Record) (cap : Nat)
    (hpos : 0 < cap) (hlen : cap < recs.length) :
    exportRecords recs cap = recs.drop (recs.length - cap)
    ∧ (exportRecords recs cap).length = cap
    ∧ List.IsSuffix (exportRecords recs cap) recs := by
  have hne : cap ≠ 0 := Nat.pos_iff_ne_zero.mp hpos
  have hexp : exportRecords recs cap = recs.drop (recs.length - cap) := by
    rw [exportRecords, if_pos hlen, pySliceLast, if_neg hne]
  refine ⟨hexp, ?_, ?_⟩
  · rw [hexp, List.length_drop]
    omega
  · rw [hexp]
    exact List.drop_suffix _ _

/-- C2 witness: cap 3 with records A,B,C,D,E keeps exactly C,D,E. -/
theorem C2_retention_cap_witness :
    0 < 3
    ∧ 3 < ([sampleRec "A", sampleRec "B", sampleRec "C", sampleRec "D",
        sampleRec "E"] : List Record).length
    ∧ (exportRecords [sampleRec "A", sampleRec "B", sampleRec "C",
          sampleRec "D", sampleRec "E"] 3
        = ([sampleRec "A", sampleRec "B", sampleRec "C", sampleRec "D",
            sampleRec "E"] : List Record).drop
            (([sampleRec "A", sampleRec "B", sampleRec "C", sampleRec "D",
              sampleRec "E"] : List Record).length - 3)
       ∧ (exportRecords [sampleRec "A", sampleRec "B", sampleRec "C",
            sampleRec "D", sampleRec "E"] 3).length = 3
       ∧ List.IsSuffix (exportRecords [sampleRec "A", sampleRec "B",
            sampleRec "C", sampleRec "D", sampleRec "E"] 3)
          [sampleRec "A", sampleRec "B", sampleRec "C", sampleRec "D",
            sampleRec "E"])
    ∧ exportRecords [sampleRec "A", sampleRec "B", sampleRec "C",
        sampleRec "D", sampleRec "E"] 3
      = [sampleRec "C", sampleRec "D", sampleRec "E"] :=
  ⟨by decide, by decide,
   C2_retention_cap _ 3 (by decide) (by decide), by decide⟩

/-- C3: for a non-empty transcript byte string, the exporter emits one
header and then the byte-offset chunks in order, every chunk is at most
MAX_CHUNK bytes, and concatenating the chunks reproduces the transcript
byte-for-byte. -/
theorem C3_chunk_reassembly (encode : List Record → List Nat)
    (d gid cid : Nat) (recs : List Record) (raw : List Nat)
    (hraw : raw = encode (dedup recs)) (hne : raw ≠ []) :
    send_chunked_logs encode (some d) true gid cid recs
      = Emission.header gid cid (dedup recs).length
          :: (chunkList raw).map Emission.file
    ∧ (∀ c ∈ chunkList raw, c.length ≤ MAX_CHUNK)
    ∧ (chunkList raw).flatten = raw
    ∧ chunkList raw = (List.range (numChunks raw.length)).map
        (fun i => (raw.drop (i * MAX_CHUNK)).take MAX_CHUNK) := by
  subst hraw
  refine ⟨?_, chunkList_length_le _, chunkList_join _,
    chunkList_eq_take_drop _⟩
  simp [send_chunked_logs, hne]

/-- C3 witness: a three-byte transcript goes out as one header and one
chunk equal to the whole byte string. -/
theorem C3_chunk_reassembly_witness :
    ([1, 2, 3] : List Nat) = (fun _ : List Record => [1, 2, 3]) (dedup [])
    ∧ ([1, 2, 3] : List Nat) ≠ []
    ∧ (send_chunked_logs (fun _ : List Record => [1, 2, 3]) (some 42) true
          1 2 []
        = Emission.header 1 2 (dedup []).length
            :: (chunkList [1, 2, 3]).map Emission.file
       ∧ (∀ c ∈ chunkList [1, 2, 3], c.length ≤ MAX_CHUNK)
       ∧ (chunkList [1, 2, 3]).flatten = [1, 2, 3]
       ∧ chunkList [1, 2, 3]
          = (List.range (numChunks ([1, 2, 3] : List Nat).length)).map
              (fun i => (([1, 2, 3] : List Nat).drop
                (i * MAX_CHUNK)).take MAX_CHUNK))
    ∧ chunkList [1, 2, 3] = [[1, 2, 3]] :=
  ⟨rfl, by decide,
   C3_chunk_reassembly (fun _ => [1, 2, 3]) 42 1 2 [] [1, 2, 3] rfl
     (by decide),
   by decide⟩

/-- C4: after a room-destroyed event for a tracked voice-like room that
passes the category filter, the buffer entry and the on-disk file for
that room are gone whatever happened to the emission step, and deleting
the on-disk file is idempotent and not an error when the file is already
missing. -/
theorem C4_purge_on_destroy (st : BotState) (ch : Chan)
    (encode : List Record → List Nat) (destResolves : Bool) (sent : Nat)
    (h1 : ch.is_voice_like = true)
    (h2 : (in_target_categories st ch.guild_id ch.category_id).1
        = true) :
    (on_guild_channel_delete st ch encode destResolves sent).1.buf ch.id
        = none
    ∧ (on_guild_channel_delete st ch encode destResolves
        sent).1.files (channel_file_path ch.id) = none
    ∧ (∀ (files : Store) (cid : Nat) (n : FileName),
        remove_channel_disk (remove_channel_disk files cid) cid n
          = remove_channel_disk files cid n)
    ∧ (∀ (files : Store) (cid : Nat),
        files (channel_file_path cid) = none →
        ∀ n, remove_channel_disk files cid n = files n) := by
  refine ⟨?_, ?_, ?_, ?_⟩
  · simp [on_guild_channel_delete, h1, h2]
  · simp [on_guild_channel_delete, h1, h2, remove_channel_disk]
  · intro files cid n
    by_cases h : n = channel_file_path cid <;> simp [remove_channel_disk, h]
  · intro files cid hnone n
    by_cases h : n = channel_file_path cid <;>
      simp [remove_channel_disk, h, hnone]

/-- C4 witness: a concrete destroy of room 3 in guild 1 purges both
stores, for any emission outcome. -/
theorem C4_purge_on_destroy_witness :
    chanW.is_voice_like = true
    ∧ (in_target_categories emptyState chanW.guild_id
        chanW.category_id).1 = true
    ∧ ((on_guild_channel_delete emptyState chanW (fun _ => []) true
          5).1.buf chanW.id = none
       ∧ (on_guild_channel_delete emptyState chanW (fun _ => []) true
          5).1.files (channel_file_path chanW.id) = none
       ∧ (∀ (files : Store) (cid : Nat) (n : FileName),
          remove_channel_disk (remove_channel_disk files cid) cid n
            = remove_channel_disk files cid n)
       ∧ (∀ (files : Store) (cid : Nat),
          files (channel_file_path cid) = none →
          ∀ n, remove_channel_disk files cid n = files n)) :=
  ⟨rfl, rfl, C4_purge_on_destroy emptyState chanW (fun _ => []) true 5
    rfl rfl⟩

/-- C5 counterexample: a bot-authored edit event in a tracked voice room
is not ignored: on_message_edit constructs a record and appends it to
both the in-memory buffer and the on-disk log, refuting the claim for
edit events. -/
theorem C5_bot_counterexample :
    botEditMsg.author_bot = true
    ∧ (on_message_edit stBot botEditMsg "now").buf 11
        = some [mkEditRecord botEditMsg "now"]
    ∧ (on_message_edit stBot botEditMsg "now").files
        (channel_file_path 11)
        = some (FileData.arr [mkEditRecord botEditMsg "now"]) := by
  refine ⟨rfl, ?_, ?_⟩ <;> decide

/-- C5 amended: only create events are dropped for bot authors; when the
author of a create event is a bot, nothing at all changes in the state. -/
theorem C5_bot_create_ignored (st : BotState) (m : Msg)
    (h : m.author_bot = true) : on_message st m = st := by
  simp [on_message, h]

/-- C5 amended witness: the concrete bot message, fed to the create
handler, leaves the state untouched. -/
theorem C5_bot_create_ignored_witness :
    botEditMsg.author_bot = true ∧ on_message stBot botEditMsg = stBot :=
  ⟨rfl, C5_bot_create_ignored stBot botEditMsg rfl⟩

/-- C6: an empty whitelist admits every room; a non-empty whitelist
rejects a room whose parent category is missing or not listed, and the
create handler then leaves the state unchanged. -/
theorem C6_category_filter (st : BotState) (m : Msg) (conf : GuildConf)
    (hconf : st.settings m.guild_id = some conf)
    (hwl : conf.category_whitelist ≠ [])
    (hcat : m.category_id = none ∨ ∃ c, m.category_id = some c
        ∧ conf.category_whitelist.contains c = false) :
    (∀ (st2 : BotState) (gid : Nat) (cat : Option Nat),
        (guild_conf st2 gid).1.category_whitelist = [] →
        (in_target_categories st2 gid cat).1 = true)
    ∧ (in_target_categories st m.guild_id m.category_id).1 = false
    ∧ on_message st m = st := by
  have hfst : (in_target_categories st m.guild_id m.category_id).1
      = false := in_target_fst_false hconf hwl hcat
  have hsnd : (in_target_categories st m.guild_id m.category_id).2
      = st := by
    rw [in_target_snd, guild_conf_found hconf]
  refine ⟨?_, hfst, ?_⟩
  · intro st2 gid cat h
    simp [in_target_categories, h]
  · by_cases hb : m.author_bot
    · simp [on_message, hb]
    · by_cases hv : m.is_voice
      · simp [on_message, hb, hv, hfst, hsnd]
      · simp [on_message, hb, hv]

/-- C6 witness: guild 2 whitelists only category 5; a message under
category 7 is rejected and the state is unchanged. -/
theorem C6_category_filter_witness :
    stWL.settings msgW.guild_id = some confWL
    ∧ confWL.category_whitelist ≠ []
    ∧ (msgW.category_id = none ∨ ∃ c, msgW.category_id = some c
        ∧ confWL.category_whitelist.contains c = false)
    ∧ ((∀ (st2 : BotState) (gid : Nat) (cat : Option Nat),
          (guild_conf st2 gid).1.category_whitelist = [] →
          (in_target_categories st2 gid cat).1 = true)
       ∧ (in_target_categories stWL msgW.guild_id msgW.category_id).1
          = false
       ∧ on_message stWL msgW = stWL) :=
  ⟨rfl, by decide, Or.inr ⟨7, rfl, by decide⟩,
   C6_category_filter stWL msgW confWL rfl (by decide)
     (Or.inr ⟨7, rfl, by decide⟩)⟩

/-- C7: when the destination log_channel_id is unset at destroy time, no
outbound send of any kind occurs for the room, and the purge of the
buffer entry and the on-disk file still happens. -/
theorem C7_unset_destination (st : BotState) (ch : Chan)
    (encode : List Record → List Nat) (destResolves : Bool) (sent : Nat)
    (conf : GuildConf)
    (h1 : ch.is_voice_like = true)
    (hconf : st.settings ch.guild_id = some conf)
    (hdest : conf.log_channel_id = none)
    (h2 : (in_target_categories st ch.guild_id ch.category_id).1
        = true) :
    (on_guild_channel_delete st ch encode destResolves sent).2 = []
    ∧ (on_guild_channel_delete st ch encode destResolves sent).1.buf
        ch.id = none
    ∧ (on_guild_channel_delete st ch encode destResolves
        sent).1.files (channel_file_path ch.id) = none := by
  have hg : guild_conf st ch.guild_id = (conf, st) := guild_conf_found hconf
  have hp : in_target_categories st ch.guild_id ch.category_id
      = (true, st) := by
    have := in_target_snd st ch.guild_id ch.category_id
    rw [hg] at this
    exact Prod.ext h2 this
  refine ⟨?_, ?_, ?_⟩ <;>
    simp [on_guild_channel_delete, h1, hp, hg, hdest, send_chunked_logs,
      remove_channel_disk]

/-- C7 witness: guild 1 has settings with the destination unset; the
destroy of room 3 emits nothing and purges both stores. -/
theorem C7_unset_destination_witness :
    chanW.is_voice_like = true
    ∧ stConf.settings chanW.guild_id = some confNoDest
    ∧ confNoDest.log_channel_id = none
    ∧ (in_target_categories stConf chanW.guild_id
        chanW.category_id).1 = true
    ∧ ((on_guild_channel_delete stConf chanW (fun _ => [7]) true 9).2 = []
       ∧ (on_guild_channel_delete stConf chanW (fun _ => [7]) true
          9).1.buf chanW.id = none
       ∧ (on_guild_channel_delete stConf chanW (fun _ => [7]) true
          9).1.files (channel_file_path chanW.id) = none) :=
  ⟨rfl, rfl, rfl, rfl,
   C7_unset_destination stConf chanW (fun _ => [7]) true 9 confNoDest
     rfl rfl rfl rfl⟩

/-- C8: dedup is idempotent, merging a list with itself changes nothing,
the exporter's defensive second dedup is a no-op on the output of
load_channel_records, and dedup output has no duplicate identity tuples
and is an order-preserving sublist of its input. -/
theorem C8_dedup_idempotent (xs : List Record) (st : BotState)
    (cid : Nat) :
    dedup (dedup xs) = dedup xs
    ∧ dedup (xs ++ xs) = dedup xs
    ∧ dedup (load_channel_records st cid) = load_channel_records st cid
    ∧ ((dedup xs).map recKey).Nodup
    ∧ (dedup xs).Sublist xs :=
  ⟨dedup_idem xs, dedup_append_self xs,
   dedup_idem (readRecordsOrEmpty (st.files (channel_file_path cid))
     ++ (st.buf cid).getD []),
   dedup_keys_nodup xs, dedup_sublist xs⟩

/-- C9: a missing or undecodable on-disk room log is treated as an empty
array and never propagated: load_channel_records returns just the
deduplicated in-memory buffer, and a disk append that cannot read the
existing file starts from the empty array. -/
theorem C9_decode_failure_empty (st : BotState) (cid : Nat) (r : Record)
    (files : Store)
    (h : st.files (channel_file_path cid) = none
       ∨ st.files (channel_file_path cid) = some FileData.other)
    (h2 : files (channel_file_path cid) = none
        ∨ files (channel_file_path cid) = some FileData.other) :
    load_channel_records st cid = dedup ((st.buf cid).getD [])
    ∧ append_message_to_disk files cid r (channel_file_path cid)
        = some (FileData.arr [r]) := by
  constructor
  · rcases h with h | h <;>
      simp [load_channel_records, h, readRecordsOrEmpty]
  · rcases h2 with h2 | h2 <;>
      simp [append_message_to_disk, h2, readRecordsOrEmpty]

/-- C9 witness: room 7 with a missing file on one state and an
undecodable file on another store behaves as if the array were empty. -/
theorem C9_decode_failure_empty_witness :
    (emptyState.files (channel_file_path 7) = none
      ∨ emptyState.files (channel_file_path 7) = some FileData.other)
    ∧ ((fun _ => some FileData.other : Store) (channel_file_path 7) = none
       ∨ (fun _ => some FileData.other : Store) (channel_file_path 7)
          = some FileData.other)
    ∧ (load_channel_records emptyState 7
        = dedup ((emptyState.buf 7).getD [])
       ∧ append_message_to_disk (fun _ => some FileData.other) 7
          (sampleRec "x") (channel_file_path 7)
          = some (FileData.arr [sampleRec "x"])) :=
  ⟨Or.inl rfl, Or.inr rfl,
   C9_decode_failure_empty emptyState 7 (sampleRec "x")
     (fun _ => some FileData.other) (Or.inl rfl) (Or.inr rfl)⟩

/-- C10: purge_cache empties the whole in-memory buffer and deletes every
room log and every other .json file except settings.json, while leaving
non-json files, the settings file, and the in-memory guild settings
untouched. -/
theorem C10_purge_cache_frame (st : BotState) (cid : Nat) (n : FileName)
    (s t : String) :
    (purge_cache st).buf cid = none
    ∧ (purge_cache st).settings = st.settings
    ∧ (purge_cache st).files (channel_file_path cid) = none
    ∧ (purge_cache st).files (FileName.otherJson s) = none
    ∧ (purge_cache st).files FileName.settingsFile
        = st.files FileName.settingsFile
    ∧ (purge_cache st).files (FileName.nonJson t)
        = st.files (FileName.nonJson t)
    ∧ (purge_cache st).files n
        = (if endsJson n = true ∧ n ≠ FileName.settingsFile then none
           else st.files n) := by
  refine ⟨rfl, rfl, ?_, ?_, ?_, ?_, rfl⟩ <;>
    simp [purge_cache, endsJson, channel_file_path]

end VcArchiver
